import Mathlib

/-!
Verification of the devdox_ai_git remote-reference parser, response
normalizers and provider dispatcher.

Strings from the Python source are modelled as `List Char`.  The model is
faithful for ASCII inputs: Python's Unicode-wide `str.lower()` /
`str.strip()` are modelled by their ASCII restrictions, and CPython's
IPv6-bracket validation inside `urllib.parse.urlsplit` (which raises
`ValueError` for netlocs with unbalanced brackets) is not modelled; no
claim below exercises a bracketed netloc.
-/

namespace DevdoxGit

/-- Abbreviation fixing the character-list view of a string literal. -/
def strOf (s : String) : List Char := s.data

/-- ASCII restriction of Python's `str.lower` (maps A-Z to a-z). -/
def pyLowerL (l : List Char) : List Char := l.map Char.toLower

/-- Characters stripped by Python's argument-less `str.strip()` (ASCII part). -/
def pyIsSpace (c : Char) : Bool :=
  c = ' ' || c = '\t' || c = '\n' || c = '\x0d' || c = '\x0b' || c = '\x0c'

/-- Python `s.strip()` (ASCII whitespace). -/
def pyStrip (l : List Char) : List Char :=
  ((l.dropWhile pyIsSpace).reverse.dropWhile pyIsSpace).reverse

/-- Python `s.strip("/")`: remove leading and trailing slashes. -/
def stripSlashBoth (l : List Char) : List Char :=
  ((l.dropWhile (fun c => c = '/')).reverse.dropWhile (fun c => c = '/')).reverse

/-- Python `s.startswith(p)`. -/
def hasPre (p s : List Char) : Bool := s.take p.length = p

/-- Python `s.endswith(p)`. -/
def hasSuf (p s : List Char) : Bool := hasPre p.reverse s.reverse

/-- Python `p in s` (substring containment). -/
def hasSub (p : List Char) : List Char → Bool
  | [] => p.isEmpty
  | c :: t => hasPre p (c :: t) || hasSub p t

/-- Python `s.split("/")`; `splitSlash [] = [[]]` just as `"".split("/") == [""]`. -/
def splitSlash : List Char → List (List Char)
  | [] => [[]]
  | c :: cs =>
    if c = '/' then [] :: splitSlash cs
    else
      match splitSlash cs with
      | [] => [[c]]
      | p :: ps => (c :: p) :: ps

/-- Python `"/".join(parts)`. -/
def joinSlash : List (List Char) → List Char
  | [] => []
  | [x] => x
  | x :: y :: xs => x ++ '/' :: joinSlash (y :: xs)

/-- `findIdx?` relative to a start offset: Python `s.find(c, start)`. -/
def findIdxFrom (p : Char → Bool) (l : List Char) (start : Nat) : Option Nat :=
  ((l.drop start).findIdx? p).map (fun j => start + j)

/-- Python `s.rfind(c)` as an optional index of the last occurrence. -/
def lastIdxOf (c : Char) (l : List Char) : Option Nat :=
  (l.reverse.findIdx? (fun x => x = c)).map (fun j => l.length - 1 - j)

/-- Truncate at the first occurrence of `c` (Python `s.split(c, 1)[0]`). -/
def cutAtFirst (c : Char) (l : List Char) : List Char :=
  match l.findIdx? (fun x => x = c) with
  | some i => l.take i
  | none => l

/-!
### Model of `urllib.parse.urlparse` (CPython), restricted to the fields the
parser reads: `scheme`, `netloc`, `path` and the `hostname` accessor.
-/

/-- CPython `urlsplit` removes `'\t'`, `'\r'`, `'\n'` before parsing. -/
def removeUnsafe (l : List Char) : List Char :=
  l.filter (fun c => !(c = '\t' || c = '\x0d' || c = '\n'))

/-- Membership in CPython `scheme_chars` (letters, digits, `+`, `-`, `.`). -/
def isSchemeChar (c : Char) : Bool :=
  c.isAlpha || c.isDigit || c = '+' || c = '-' || c = '.'

/-- CPython `urlsplit` scheme detection: the part before the first `':'`
qualifies when nonempty, led by an ASCII letter and made of scheme chars;
the scheme is lowercased. Returns `(scheme, rest)`. -/
def splitScheme (url : List Char) : List Char × List Char :=
  match url.findIdx? (fun c => c = ':') with
  | some i =>
    if 0 < i && (url.headD ' ').isAlpha && (url.take i).all isSchemeChar
    then (pyLowerL (url.take i), url.drop (i + 1))
    else ([], url)
  | none => ([], url)

/-- CPython `_splitnetloc`: when the remainder starts with `//`, the netloc
runs until the first of `/`, `?`, `#`. Returns `(netloc, rest)`. -/
def splitNetloc (url : List Char) : List Char × List Char :=
  if url.take 2 = ['/', '/'] then
    let rest := url.drop 2
    match rest.findIdx? (fun c => c = '/' || c = '?' || c = '#') with
    | some i => (rest.take i, rest.drop i)
    | none => (rest, [])
  else ([], url)

/-- Schemes in CPython `uses_params` (parameter splitting applies to these). -/
def usesParamsList : List (List Char) :=
  [[], strOf "ftp", strOf "hdl", strOf "prospero", strOf "http", strOf "imap",
   strOf "https", strOf "shttp", strOf "rtsp", strOf "rtspu", strOf "sip",
   strOf "sips", strOf "mms", strOf "sftp", strOf "tel"]

/-- CPython `_splitparams`, applied when `';'` occurs in the path: cut at the
first `';'` after the last `'/'` (or the first `';'` if there is no `'/'`). -/
def splitParams (url : List Char) : List Char :=
  if '/' ∈ url then
    match lastIdxOf '/' url with
    | some r =>
      match findIdxFrom (fun c => c = ';') url r with
      | some i => url.take i
      | none => url
    | none => url
  else cutAtFirst ';' url

structure UrlParsed where
  scheme : List Char
  netloc : List Char
  path : List Char
deriving DecidableEq

/-- Model of `urllib.parse.urlparse(url)` restricted to scheme/netloc/path
(query and fragment are split off the path but not retained; the source
never reads them). -/
def urlparseModel (url0 : List Char) : UrlParsed :=
  let url1 := removeUnsafe url0
  let sr := splitScheme url1
  let nr := splitNetloc sr.2
  let u3 := cutAtFirst '#' nr.2
  let u4 := cutAtFirst '?' u3
  let path := if usesParamsList.contains sr.1 && (';' ∈ u4 : Bool) then splitParams u4 else u4
  ⟨sr.1, nr.1, path⟩

/-- CPython `SplitResult.hostname` (bracket-free netlocs): drop everything up
to the last `'@'`, cut at the first `':'`, lowercase; `none` when empty. -/
def hostnameOf (netloc : List Char) : Option (List Char) :=
  let hostinfo :=
    match lastIdxOf '@' netloc with
    | some i => netloc.drop (i + 1)
    | none => netloc
  let hostname := cutAtFirst ':' hostinfo
  if hostname = [] then none else some (pyLowerL hostname)

/-!
### Model of `_SCP_RE`, the anchored pattern
`^(?:(?P<user>[^@]+)@)?(?P<host>[^:]+):(?P<path>.+)$` under Python `re`
leftmost-greedy matching. `re.match` anchors at the start; the final `$`
matches at the end of the string or just before a trailing newline.
-/

/-- Match `.+$`: nonempty, no interior newline; a single trailing newline is
tolerated (and excluded from the capture) by Python's `$`. -/
def pathOk (p : List Char) : Option (List Char) :=
  let core := if p.getLast? = some '\n' then p.dropLast else p
  if core ≠ [] ∧ '\n' ∉ core then some core else none

/-- The fallback attempt with the optional `user@` group unmatched: host is
everything before the first `':'` (must be nonempty), path the rest. -/
def scpNoUser (s : List Char) : Option (List Char × List Char) :=
  match s.findIdx? (fun c => c = ':') with
  | some q =>
    if 0 < q then (pathOk (s.drop (q + 1))).map (fun p => (s.take q, p))
    else none
  | none => none

/-- Full match of `_SCP_RE` returning the `host` and `path` groups. The
greedy engine first tries `user@` = up to the first `'@'` (user nonempty),
host = from there to the next `':'`; on failure it retries with the
optional group unmatched. -/
def scpMatch (s : List Char) : Option (List Char × List Char) :=
  match s.findIdx? (fun c => c = '@') with
  | some i =>
    if 0 < i then
      let rest := s.drop (i + 1)
      match rest.findIdx? (fun c => c = ':') with
      | some j =>
        if 0 < j then
          match pathOk (rest.drop (j + 1)) with
          | some p => some (rest.take j, p)
          | none => scpNoUser s
        else scpNoUser s
      | none => scpNoUser s
    else scpNoUser s
  | none => scpNoUser s

/-!
### Model of `devdox_ai_git/utils/repository_url_parser.py`
-/

/-- The structured reference produced by `parse_git_remote`. The Python
field `namespace` is a Lean keyword and is called `nspace` here. -/
structure RepoRef where
  original : List Char
  host : List Char
  provider : List Char
  nspace : List (List Char)
  repo : List Char
  full_name : List Char
deriving DecidableEq

/-- Modelled from the spec: the exceptions module
(`devdox_ai_git/exceptions/*`) is not under `src/`; `parse_git_remote`
raises `DevDoxGitException` with message `UNRECOGNIZED_GIT_FORMAT` for
unrecognized shapes and `MISSING_NAMESPACE__REPO` for recognized shapes
with fewer than two path segments, which the spec names
`MalformedRemoteError` and `IncompleteReferenceError` respectively. -/
inductive ParseError where
  | malformedRemote
  | incompleteReference
deriving DecidableEq

/-- `_provider_from_host`: substring classification; `gitlab` is tested
before `github` (the `GitHosting` enum values from `schema/repo.py`). -/
def provider_from_host (host : List Char) : List Char :=
  let h := pyLowerL host
  if hasSub (strOf "gitlab") h then strOf "gitlab"
  else if hasSub (strOf "github") h then strOf "github"
  else strOf "unknown"

/-- The `^[A-Za-z]:[\\/]` drive-letter pattern of `_looks_like_bare_fullname`. -/
def isDriveLetter : List Char → Bool
  | a :: b :: c :: _ => a.isAlpha && b = ':' && (c = '\\' || c = '/')
  | _ => false

/-- `_looks_like_bare_fullname`: the heuristic for `owner/repo` shorthand. -/
def looks_like_bare_fullname (s : List Char) : Bool :=
  if s = [] || '\\' ∈ s then false
  else if hasPre (strOf "/") s || hasPre (strOf "./") s || hasPre (strOf "../") s then false
  else if isDriveLetter s then false
  else ('/' ∈ s : Bool) && !(((':' ∈ s : Bool)) || hasSub (strOf "://") s)

/-- The `.git`-suffix step of `_split_path`: strip a trailing `".git"` from
the last part (Python `parts[-1] = parts[-1][:-4]`). -/
def gitFix (parts : List (List Char)) : List (List Char) :=
  match parts.reverse with
  | [] => parts
  | last :: revInit =>
    if hasSuf (strOf ".git") last
    then ((last.take (last.length - 4)) :: revInit).reverse
    else parts

/-- `_split_path`: strip surrounding slashes, split on `/`, drop empty
segments, then strip a trailing `.git` from the last segment. -/
def split_path (path : List Char) : List (List Char) :=
  gitFix ((splitSlash (stripSlashBoth path)).filter (fun p => !p.isEmpty))

/-- The shared tail of the URL and scp branches of `parse_git_remote`:
fewer than two segments is the `MISSING_NAMESPACE__REPO` failure, otherwise
a `RepoRef` is assembled (`parts[-1]` is total here since `parts.length ≥ 2`). -/
def mkRef (remote host : List Char) (parts : List (List Char)) : Except ParseError RepoRef :=
  if parts.length < 2 then .error .incompleteReference
  else .ok ⟨remote, host, provider_from_host host, parts.dropLast, parts.getLastD [], joinSlash parts⟩

/-- The early-returning bare-shorthand `RepoRef` (no host, provider
`unknown`); `parts` is nonempty on every reachable call, so `parts[-1]`
is modelled by `getLastD`. -/
def bareRef (remote : List Char) (parts : List (List Char)) : RepoRef :=
  ⟨remote, [], strOf "unknown", parts.dropLast, parts.getLastD [], joinSlash parts⟩

/-- `parse_git_remote` on an already-stripped remote string (the source
strips once on entry; see `parse_git_remote` below). -/
def parseStripped (remote : List Char) : Except ParseError RepoRef :=
  let parsed := urlparseModel remote
  if parsed.scheme ≠ [] ∧ parsed.netloc ≠ [] then
    let host := pyLowerL (match hostnameOf parsed.netloc with
      | some h => h
      | none => parsed.netloc)
    mkRef remote host (split_path parsed.path)
  else
    match scpMatch remote with
    | some hp => mkRef remote (pyLowerL hp.1) (split_path hp.2)
    | none =>
      if hasPre (strOf "/") remote && looks_like_bare_fullname (remote.drop 1) then
        .ok (bareRef remote (split_path (remote.drop 1)))
      else if looks_like_bare_fullname remote then
        .ok (bareRef remote (split_path remote))
      else .error .malformedRemote

/-- `parse_git_remote`: strip the input, then try URL form, scp form, the
two bare-shorthand forms, and fail otherwise. -/
def parse_git_remote (remote0 : List Char) : Except ParseError RepoRef :=
  parseStripped (pyStrip remote0)

/-!
### Model of `devdox_ai_git/schema/repo.py`

Payload values are modelled with typed optional fields (`none` = key
absent / attribute `None`); the `statistics` sub-dict is an association
list so that both "present but empty" and "present without the
`repository_size` key" are representable.
-/

/-- Python truthiness coercion `x or 0` applied to an `int | None`. -/
def pyOrZero : Option Int → Int
  | none => 0
  | some v => if v = 0 then 0 else v

/-- Python truthiness coercion `x or d` applied to a `str | None`. -/
def pyOrStr (x : Option String) (d : String) : String :=
  match x with
  | none => d
  | some s => if s = "" then d else s

/-- ASCII restriction of Python `str.lower` (character-list form, so that
it reduces inside the kernel). -/
def pyLowerS (s : String) : String := String.mk (s.data.map Char.toLower)

/-- Python `d.get(k, dflt)` on an association-list dict with `Int` values. -/
def dictGetInt (l : List (String × Int)) (k : String) (dflt : Int) : Int :=
  match l.find? (fun p => p.1 = k) with
  | some p => p.2
  | none => dflt

/-- Errors the normalizers can raise.  `typeError` is the
`UnsupportedPayloadTypeError` of the spec (a Python `TypeError` carrying a
message naming the received type); `validationError` models the pydantic
`ValidationError` raised when a required `NormalizedGitRepo` field
(`repo_name`, `html_url`, `relative_path`) resolves to `None`. -/
inductive PyErr where
  | typeError (msg : String)
  | validationError
deriving DecidableEq

/-- The unified `NormalizedGitRepo` schema.  The pydantic field `private`
is a Lean keyword and is called `private_flag` here; datetimes are kept
opaque as strings. -/
structure NormalizedGitRepo where
  id : String
  repo_name : String
  description : Option String
  html_url : String
  relative_path : String
  default_branch : String
  forks_count : Int
  stargazers_count : Int
  size : Option Int
  repo_created_at : Option String
  private_flag : Option Bool
  visibility : Option String
deriving DecidableEq

/-- A GitLab mapping payload (`dict` branch of `from_git`): each source key
the code reads, as an optional typed value. -/
structure GLDict where
  id : Option String := none
  name : Option String := none
  description : Option String := none
  default_branch : Option String := none
  forks_count : Option Int := none
  visibility : Option String := none
  created_at : Option String := none
  star_count : Option Int := none
  http_url_to_repo : Option String := none
  path_with_namespace : Option String := none
  statistics : Option (List (String × Int)) := none
deriving DecidableEq

/-- `not data` for a dict: true exactly when the dict is empty. -/
def GLDict.isEmptyDict (d : GLDict) : Bool :=
  d.id.isNone && d.name.isNone && d.description.isNone && d.default_branch.isNone &&
  d.forks_count.isNone && d.visibility.isNone && d.created_at.isNone &&
  d.star_count.isNone && d.http_url_to_repo.isNone && d.path_with_namespace.isNone &&
  d.statistics.isNone

/-- A GitLab `Project`/`SimpleNamespace` payload: the attributes
`transform_project_to_dict` reads directly (model scope: populated
objects), with `visibility`/`statistics` optional since the code reads
them via `getattr(_, _, None)`. -/
structure GLProject where
  id : Int
  name : String
  description : String
  default_branch : String
  forks_count : Int
  visibility : Option String
  created_at : String
  star_count : Int
  http_url_to_repo : String
  path_with_namespace : String
  statistics : Option (List (String × Int))

/-- `GitLabRepoResponseTransformer.derive_storage_size`. -/
def derive_storage_size (statistics : Option (List (String × Int))) : Option Int :=
  match statistics with
  | none => none
  | some l => if l = [] then none else some (dictGetInt l "repository_size" 0)

/-- `GitLabRepoResponseTransformer.derived_private_field`. -/
def derived_private_field (visibility : Option String) : Option Bool :=
  match visibility with
  | none => none
  | some v =>
    if v = "" then none
    else if pyLowerS v = "private" ∨ pyLowerS v = "internal" then some true
    else some false

/-- `GitLabRepoResponseTransformer.transform_project_to_dict`. -/
def transform_project_to_dict (p : GLProject) : GLDict :=
  { id := some (toString p.id), name := some p.name,
    description := some p.description, default_branch := some p.default_branch,
    forks_count := some p.forks_count, visibility := p.visibility,
    created_at := some p.created_at, star_count := some p.star_count,
    http_url_to_repo := some p.http_url_to_repo,
    path_with_namespace := some p.path_with_namespace,
    statistics := p.statistics }

/-- The `NormalizedGitRepo(...)` construction of the GitLab `from_git`,
including the pydantic validation of the required string fields. -/
def glBuild (d : GLDict) : Except PyErr NormalizedGitRepo :=
  match d.name, d.http_url_to_repo, d.path_with_namespace with
  | some nm, some url, some rp =>
    .ok { id := d.id.getD "", repo_name := nm, description := d.description,
          html_url := url, relative_path := rp,
          default_branch := d.default_branch.getD "main",
          forks_count := d.forks_count.getD 0,
          stargazers_count := d.star_count.getD 0,
          size := some (pyOrZero (derive_storage_size d.statistics)),
          repo_created_at := d.created_at,
          private_flag := derived_private_field d.visibility,
          visibility := d.visibility }
  | _, _, _ => .error .validationError

/-- The payloads the GitLab `from_git` dispatches over.  `other` stands for
any truthy value that is neither a `Project`/`SimpleNamespace` nor a
`dict`, carrying the rendering of `type(data)`; falsy non-dict inputs are
`pyNone` (the `if not data` guard returns before any type inspection). -/
inductive GLPayload where
  | pyNone
  | project (p : GLProject)
  | mapping (d : GLDict)
  | other (typeName : String)

/-- `GitLabRepoResponseTransformer.from_git`. -/
def gl_from_git : GLPayload → Except PyErr (Option NormalizedGitRepo)
  | .pyNone => .ok none
  | .project p => (glBuild (transform_project_to_dict p)).map some
  | .mapping d =>
    if d.isEmptyDict then .ok none else (glBuild d).map some
  | .other t =>
    .error (.typeError ("Unsupported type for `data`: " ++ t ++
      ". Expected Project, SimpleNamespace, or dict."))

/-- `GitHubRepoResponseTransformer.resolve_git_size_from_kb_to_byte`. -/
def resolve_git_size_from_kb_to_byte (size : Int) : Int :=
  if size = 0 then 0 else size * 1024

/-- A GitHub mapping payload (`dict` branch of `from_git`). -/
structure GHDict where
  id : Option String := none
  name : Option String := none
  description : Option String := none
  default_branch : Option String := none
  forks_count : Option Int := none
  size : Option Int := none
  stargazers_count : Option Int := none
  full_name : Option String := none
  html_url : Option String := none
  private_flag : Option Bool := none
  visibility : Option String := none
  repo_created_at : Option String := none
deriving DecidableEq

/-- `not data` for a GitHub dict: true exactly when the dict is empty. -/
def GHDict.isEmptyDict (d : GHDict) : Bool :=
  d.id.isNone && d.name.isNone && d.description.isNone && d.default_branch.isNone &&
  d.forks_count.isNone && d.size.isNone && d.stargazers_count.isNone &&
  d.full_name.isNone && d.html_url.isNone && d.private_flag.isNone &&
  d.visibility.isNone && d.repo_created_at.isNone

/-- A GitHub `Repository`/`SimpleNamespace` payload (model scope: populated
objects; `visibility` is read via `getattr(_, _, None)`, and the fields
the code coerces with `or` may be `None`). -/
structure GHRepo where
  id : Int
  name : String
  description : Option String
  default_branch : Option String
  forks_count : Option Int
  size : Option Int
  stargazers_count : Option Int
  full_name : String
  html_url : String
  private_flag : Bool
  visibility : Option String
  created_at : String

/-- `GitHubRepoResponseTransformer.transform_repository_to_dict`. -/
def transform_repository_to_dict (r : GHRepo) : GHDict :=
  { id := some (toString r.id), name := some r.name,
    description := r.description,
    default_branch := some (pyOrStr r.default_branch "main"),
    forks_count := some (pyOrZero r.forks_count),
    size := some (pyOrZero r.size),
    stargazers_count := some (pyOrZero r.stargazers_count),
    full_name := some r.full_name, html_url := some r.html_url,
    private_flag := some r.private_flag, visibility := r.visibility,
    repo_created_at := some r.created_at }

/-- The `NormalizedGitRepo(...)` construction of the GitHub `from_git`,
including the pydantic validation of the required string fields. -/
def ghBuild (d : GHDict) : Except PyErr NormalizedGitRepo :=
  match d.name, d.full_name, d.html_url with
  | some nm, some fn, some url =>
    .ok { id := d.id.getD "", repo_name := nm, description := d.description,
          html_url := url, relative_path := fn,
          default_branch := d.default_branch.getD "main",
          forks_count := d.forks_count.getD 0,
          stargazers_count := d.stargazers_count.getD 0,
          size := some (resolve_git_size_from_kb_to_byte (d.size.getD 0)),
          repo_created_at := d.repo_created_at,
          private_flag := d.private_flag,
          visibility := d.visibility }
  | _, _, _ => .error .validationError

/-- The payloads the GitHub `from_git` dispatches over (see `GLPayload`). -/
inductive GHPayload where
  | pyNone
  | repository (r : GHRepo)
  | mapping (d : GHDict)
  | other (typeName : String)

/-- `GitHubRepoResponseTransformer.from_git`. -/
def gh_from_git : GHPayload → Except PyErr (Option NormalizedGitRepo)
  | .pyNone => .ok none
  | .repository r => (ghBuild (transform_repository_to_dict r)).map some
  | .mapping d =>
    if d.isEmptyDict then .ok none else (ghBuild d).map some
  | .other t =>
    .error (.typeError ("Unsupported type for `data`: " ++ t ++
      ". Expected Repository, SimpleNamespace, or dict."))

/-!
### Model of `RepoFetcher.get_components` (`repo_fetcher.py`)
-/

/-- The `GitHosting` string enum. -/
inductive GitHosting where
  | github
  | gitlab
deriving DecidableEq

/-- `GitHosting.<member>.value`. -/
def GitHosting.value : GitHosting → String
  | .github => "github"
  | .gitlab => "gitlab"

/-- The argument of `get_components`: either a `GitHosting` member or a
raw string. -/
inductive ProviderArg where
  | enum (g : GitHosting)
  | str (s : String)

/-- `provider.value if isinstance(provider, GitHosting) else provider`. -/
def providerValue : ProviderArg → String
  | .enum g => g.value
  | .str s => s

/-- Python `provider == GitHosting.<member>`: `GitHosting` subclasses
`str`, so for a string argument this is string equality with the member's
value, and for an enum argument it is member identity. -/
def providerEqMember (p : ProviderArg) (g : GitHosting) : Bool :=
  match p with
  | .enum e => e = g
  | .str s => s = g.value

/-- The concrete fetcher/transformer classes `get_components` instantiates,
reduced to tags (the classes themselves hold no construction-time state). -/
inductive FetcherTag where
  | githubFetcher
  | gitlabFetcher
deriving DecidableEq

inductive TransformerTag where
  | githubTransformer
  | gitlabTransformer
deriving DecidableEq

/-- `RepoFetcher.get_components`: note the comparisons are plain `==`
against the enum values — no case normalization is performed. -/
def get_components (provider : ProviderArg) :
    Option FetcherTag × Option TransformerTag :=
  let provider_value := providerValue provider
  if provider_value = GitHosting.github.value || providerEqMember provider .github then
    (some .githubFetcher, some .githubTransformer)
  else if provider_value = GitHosting.gitlab.value || providerEqMember provider .gitlab then
    (some .gitlabFetcher, some .gitlabTransformer)
  else (none, none)

deriving instance DecidableEq for Except

/-!
### Theorems
-/

/-- C10: a Windows drive-letter path with forward slashes is not rejected:
`"C:/foo/bar"` matches the scp-like pattern (the drive-letter exclusion
lives only in `_looks_like_bare_fullname`), and `parse_git_remote` returns
host `"c"`, provider `"unknown"`, namespace `["foo"]`, repo `"bar"`. -/
theorem C10_drive_letter_scp :
    parse_git_remote (strOf "C:/foo/bar") =
      .ok ⟨strOf "C:/foo/bar", strOf "c", strOf "unknown",
           [strOf "foo"], strOf "bar", strOf "foo/bar"⟩ := by
  decide

/-- C1 (failing inputs): the claimed invariant — every returned `RepoRef`
has a nonempty namespace and a nonempty repo — is violated by the code:
the bare-shorthand branch returns `"owner/"` with an empty namespace
(no two-segment validation runs there), and the URL branch returns
`"https://github.com/owner/.git"` with an empty repo (the `.git`-suffix
strip empties the final segment after the length check counted it). -/
theorem C1_invariant_violated :
    parse_git_remote (strOf "owner/") =
      .ok ⟨strOf "owner/", [], strOf "unknown", [], strOf "owner", strOf "owner"⟩ ∧
    parse_git_remote (strOf "https://github.com/owner/.git") =
      .ok ⟨strOf "https://github.com/owner/.git", strOf "github.com", strOf "github",
           [strOf "owner"], [], strOf "owner/"⟩ := by
  constructor
  · decide
  · decide

/-- C8: the two failure kinds are distinct and arise as claimed on the
named inputs (`"https://github.com/owner"` has URL shape but one segment;
`"notaurl"` matches no shape) — but the second clause of the claim fails
in general: the recognized bare-shorthand input `"a/"` yields one segment
after segmentation yet the code returns a `RepoRef` instead of raising
`IncompleteReferenceError`. -/
theorem C8_error_kinds :
    parse_git_remote (strOf "https://github.com/owner") = .error .incompleteReference ∧
    parse_git_remote (strOf "notaurl") = .error .malformedRemote ∧
    ParseError.incompleteReference ≠ ParseError.malformedRemote ∧
    parse_git_remote (strOf "a/") =
      .ok ⟨strOf "a/", [], strOf "unknown", [], strOf "a", strOf "a"⟩ := by
  refine ⟨by decide, by decide, by decide, by decide⟩

/-- C2 (counterexample): `get_components` is not case-insensitive — the
raw string `"GITHUB"` resolves to the `(None, None)` pair, not to the
GitHub fetcher/transformer pair. -/
theorem C2_counterexample :
    get_components (.str "GITHUB") = (none, none) ∧
    get_components (.str "GITHUB") ≠
      (some .githubFetcher, some .githubTransformer) := by
  refine ⟨by decide, by decide⟩

/-- C2 (amended): `get_components` compares the raw provider string
case-sensitively: exactly `"github"` / `"gitlab"` (or the corresponding
enum member) resolve to the provider pairs, and every other string —
including other casings such as `"GITHUB"` — yields `(None, None)`
without raising. -/
theorem C2_amended_case_sensitive :
    (∀ s : String, get_components (.str s) =
      if s = "github" then (some .githubFetcher, some .githubTransformer)
      else if s = "gitlab" then (some .gitlabFetcher, some .gitlabTransformer)
      else (none, none)) ∧
    get_components (.enum .github) = (some .githubFetcher, some .githubTransformer) ∧
    get_components (.enum .gitlab) = (some .gitlabFetcher, some .gitlabTransformer) := by
  refine ⟨fun s => ?_, by decide, by decide⟩
  by_cases h1 : s = "github" <;> by_cases h2 : s = "gitlab" <;>
    simp [get_components, providerValue, providerEqMember, GitHosting.value, h1, h2]

/-- `x or 0` on a present value returns the value itself. -/
theorem pyOrZero_some (v : Int) : pyOrZero (some v) = v := by
  unfold pyOrZero
  by_cases h : v = 0 <;> simp [h]

/-- A GitLab mapping payload carrying only the three required keys
(plus, optionally, `statistics`/`visibility` in the theorems below). -/
def glReq (nm url rp : String) : GLDict :=
  { name := some nm, http_url_to_repo := some url, path_with_namespace := some rp }

/-- Evaluation of the GitLab `from_git` on any mapping payload whose three
required keys are present (shared by the per-claim theorems below). -/
theorem gl_mapping_eval (d : GLDict) (nm url rp : String)
    (h1 : d.name = some nm) (h2 : d.http_url_to_repo = some url)
    (h3 : d.path_with_namespace = some rp) :
    gl_from_git (.mapping d) = .ok (some
      { id := d.id.getD "", repo_name := nm, description := d.description, html_url := url,
        relative_path := rp, default_branch := d.default_branch.getD "main",
        forks_count := d.forks_count.getD 0, stargazers_count := d.star_count.getD 0,
        size := some (pyOrZero (derive_storage_size d.statistics)),
        repo_created_at := d.created_at, private_flag := derived_private_field d.visibility,
        visibility := d.visibility }) := by
  have hne : d.isEmptyDict = false := by
    unfold GLDict.isEmptyDict
    simp [h1]
  simp [gl_from_git, hne, glBuild, h1, h2, h3, Except.map]

/-- Evaluation of the GitHub `from_git` on any mapping payload whose three
required keys are present (shared by the per-claim theorems below). -/
theorem gh_mapping_eval (d : GHDict) (nm fn url : String)
    (h1 : d.name = some nm) (h2 : d.full_name = some fn)
    (h3 : d.html_url = some url) :
    gh_from_git (.mapping d) = .ok (some
      { id := d.id.getD "", repo_name := nm, description := d.description, html_url := url,
        relative_path := fn, default_branch := d.default_branch.getD "main",
        forks_count := d.forks_count.getD 0,
        stargazers_count := d.stargazers_count.getD 0,
        size := some (resolve_git_size_from_kb_to_byte (d.size.getD 0)),
        repo_created_at := d.repo_created_at, private_flag := d.private_flag,
        visibility := d.visibility }) := by
  have hne : d.isEmptyDict = false := by
    unfold GHDict.isEmptyDict
    simp [h1]
  simp [gh_from_git, hne, ghBuild, h1, h2, h3, Except.map]

/-- C3 (counterexample): on a mapping payload without `statistics`, the
GitLab `from_git` produces `size = 0`, not an unset size — the
`derive_storage_size(...) or 0` coercion turns the `None` into `0`. -/
theorem C3_counterexample :
    gl_from_git (.mapping (glReq "n" "u" "p")) =
      .ok (some { id := "", repo_name := "n", description := none, html_url := "u",
                  relative_path := "p", default_branch := "main", forks_count := 0,
                  stargazers_count := 0, size := some 0, repo_created_at := none,
                  private_flag := none, visibility := none }) ∧
    (some (0 : Int) ≠ (none : Option Int)) := by
  refine ⟨by decide, by decide⟩

/-- C3 (amended): for the GitLab `from_git` on a mapping payload, an
absent `statistics` structure yields size `0` (not unset: the `or 0`
coercion applies), a present `statistics` lacking `repository_size`
yields `0`, and a present `repository_size` is passed through with no
unit conversion. -/
theorem C3_amended_gitlab_size (d : GLDict) (nm url rp : String)
    (h1 : d.name = some nm) (h2 : d.http_url_to_repo = some url)
    (h3 : d.path_with_namespace = some rp) :
    ∃ r, gl_from_git (.mapping d) = .ok (some r) ∧
      (d.statistics = none → r.size = some 0) ∧
      (∀ l, d.statistics = some l → (∀ p ∈ l, p.1 ≠ "repository_size") → r.size = some 0) ∧
      (∀ l v, d.statistics = some l →
        l.find? (fun p => p.1 = "repository_size") = some v → r.size = some v.2) := by
  refine ⟨_, gl_mapping_eval d nm url rp h1 h2 h3, ?_, ?_, ?_⟩
  · intro hs
    simp [derive_storage_size, hs, pyOrZero]
  · intro l hs hmiss
    have hfind : l.find? (fun p => p.1 = "repository_size") = none := by
      rw [List.find?_eq_none]
      intro p hp
      simpa using hmiss p hp
    cases hl : l with
    | nil => simp [derive_storage_size, hs, hl, pyOrZero]
    | cons a t =>
      simp only [derive_storage_size, hs, hl, dictGetInt]
      rw [hl] at hfind
      simp [hfind, pyOrZero]
  · intro l v hs hfind
    have hl : l ≠ [] := by
      intro h
      rw [h] at hfind
      simp at hfind
    simp only [derive_storage_size, hs, dictGetInt, hfind, if_neg hl]
    simp [pyOrZero_some]

/-- The spec's GitLab scenario payload:
`{visibility: "internal", statistics: {repository_size: 2048}}` plus the
required keys. -/
def glScenario : GLDict :=
  { glReq "n" "u" "p" with
    visibility := some "internal",
    statistics := some [("repository_size", 2048)] }

/-- Witness for `C3_amended_gitlab_size`: on `glScenario` the value `2048`
is passed through unchanged. -/
theorem C3_amended_gitlab_size_witness :
    ∃ r, gl_from_git (.mapping glScenario) = .ok (some r) ∧ r.size = some 2048 := by
  obtain ⟨r, hr, _, _, hc⟩ :=
    C3_amended_gitlab_size glScenario "n" "u" "p" rfl rfl rfl
  exact ⟨r, hr, hc _ ("repository_size", 2048) rfl (by decide)⟩

/-- C4: for the GitHub `from_git` on a mapping payload, the normalized
size is the kilobyte source value multiplied by 1024, and it is `0` —
present, never unset — when the source size is absent or `0`. -/
theorem C4_github_size_kb_to_bytes (d : GHDict) (nm fn url : String)
    (h1 : d.name = some nm) (h2 : d.full_name = some fn)
    (h3 : d.html_url = some url) :
    ∃ r, gh_from_git (.mapping d) = .ok (some r) ∧
      (∀ k : Int, 0 ≤ k → d.size = some k → r.size = some (k * 1024)) ∧
      ((d.size = none ∨ d.size = some 0) → r.size = some 0) := by
  refine ⟨_, gh_mapping_eval d nm fn url h1 h2 h3, ?_, ?_⟩
  · intro k _ hs
    simp only [hs, Option.getD_some, resolve_git_size_from_kb_to_byte]
    by_cases hk : k = 0 <;> simp [hk]
  · rintro (hs | hs) <;> simp [hs, resolve_git_size_from_kb_to_byte]

/-- The spec's GitHub scenario payload (`size = 50` plus required keys). -/
def ghScenario : GHDict :=
  { name := some "n", full_name := some "f", html_url := some "u", size := some 50 }

/-- Witness for `C4_github_size_kb_to_bytes`: the spec's scenario payload
with `size = 50` normalizes to `51200` bytes. -/
theorem C4_github_size_kb_to_bytes_witness :
    ∃ r, gh_from_git (.mapping ghScenario) = .ok (some r) ∧ r.size = some 51200 := by
  obtain ⟨r, hr, ha, _⟩ := C4_github_size_kb_to_bytes ghScenario "n" "f" "u" rfl rfl rfl
  exact ⟨r, hr, by rw [ha 50 (by decide) rfl]; norm_num⟩

/-- C5: for the GitLab `from_git` on a mapping payload, the `private`
flag is derived from `visibility`: any ASCII casing of `private` or
`internal` gives `some true`, any other nonempty visibility gives
`some false`, and an absent or empty visibility leaves it unset. -/
theorem C5_gitlab_private_derivation (d : GLDict) (nm url rp : String)
    (h1 : d.name = some nm) (h2 : d.http_url_to_repo = some url)
    (h3 : d.path_with_namespace = some rp) :
    ∃ r, gl_from_git (.mapping d) = .ok (some r) ∧
      (∀ v, d.visibility = some v →
        (pyLowerS v = "private" ∨ pyLowerS v = "internal") → r.private_flag = some true) ∧
      (∀ v, d.visibility = some v → pyLowerS v ≠ "private" → pyLowerS v ≠ "internal" →
        v ≠ "" → r.private_flag = some false) ∧
      ((d.visibility = none ∨ d.visibility = some "") → r.private_flag = none) := by
  refine ⟨_, gl_mapping_eval d nm url rp h1 h2 h3, ?_, ?_, ?_⟩
  · intro v hv hcase
    have hvne : v ≠ "" := by
      rintro rfl
      rcases hcase with h | h <;> revert h <;> decide
    simp only [hv, derived_private_field]
    rw [if_neg hvne, if_pos hcase]
  · intro v hv hp hi hvne
    simp only [hv, derived_private_field]
    rw [if_neg hvne, if_neg (by tauto)]
  · rintro (hv | hv) <;> simp [hv, derived_private_field]

/-- Witness for `C5_gitlab_private_derivation`: the spec's scenario with
`visibility = "internal"` derives `private = true`. -/
theorem C5_gitlab_private_derivation_witness :
    ∃ r, gl_from_git (.mapping glScenario) = .ok (some r) ∧
      r.private_flag = some true := by
  obtain ⟨r, hr, ha, _, _⟩ :=
    C5_gitlab_private_derivation glScenario "n" "u" "p" rfl rfl rfl
  exact ⟨r, hr, ha "internal" rfl (Or.inr (by decide))⟩

/-- C7: both normalizers return `none` (no error) on falsy payloads
(`None` and the empty dict), raise a type error naming the received type
on any truthy payload that is neither provider-native nor a dict, and on
mapping payloads with the required keys the missing optional fields
resolve to the documented defaults instead of raising. -/
theorem C7_payload_dispatch :
    gl_from_git .pyNone = .ok none ∧
    gh_from_git .pyNone = .ok none ∧
    gl_from_git (.mapping {}) = .ok none ∧
    gh_from_git (.mapping {}) = .ok none ∧
    (∀ t, gl_from_git (.other t) = .error (.typeError
      ("Unsupported type for `data`: " ++ t ++
       ". Expected Project, SimpleNamespace, or dict."))) ∧
    (∀ t, gh_from_git (.other t) = .error (.typeError
      ("Unsupported type for `data`: " ++ t ++
       ". Expected Repository, SimpleNamespace, or dict."))) ∧
    (∀ nm url rp, gl_from_git (.mapping (glReq nm url rp)) = .ok (some
      { id := "", repo_name := nm, description := none, html_url := url, relative_path := rp,
        default_branch := "main", forks_count := 0, stargazers_count := 0, size := some 0,
        repo_created_at := none, private_flag := none, visibility := none })) ∧
    (∀ nm fn url, gh_from_git
      (.mapping { name := some nm, full_name := some fn, html_url := some url }) = .ok (some
      { id := "", repo_name := nm, description := none, html_url := url, relative_path := fn,
        default_branch := "main", forks_count := 0, stargazers_count := 0, size := some 0,
        repo_created_at := none, private_flag := none, visibility := none })) :=
  ⟨rfl, rfl, by decide, by decide, fun _ => rfl, fun _ => rfl,
   fun _ _ _ => rfl, fun _ _ _ => rfl⟩

/-- Every successful branch of the parser records the (already stripped)
remote it was given as `original`. -/
theorem parseStripped_original (t : List Char) (ref : RepoRef)
    (h : parseStripped t = .ok ref) : ref.original = t := by
  simp only [parseStripped] at h
  split at h
  · unfold mkRef at h
    split at h
    · cases h
    · injection h with h2
      subst h2
      rfl
  · split at h
    · unfold mkRef at h
      split at h
      · cases h
      · injection h with h2
        subst h2
        rfl
    · split at h
      · injection h with h2
        subst h2
        rfl
      · split at h
        · injection h with h2
          subst h2
          rfl
        · cases h

/-- C6 (counterexample): leading whitespace is not preserved in
`original` — the parser strips the input first, so `" torvalds/linux"`
comes back with `original = "torvalds/linux"`. -/
theorem C6_counterexample :
    parse_git_remote (strOf " torvalds/linux") =
      .ok ⟨strOf "torvalds/linux", [], strOf "unknown",
           [strOf "torvalds"], strOf "linux", strOf "torvalds/linux"⟩ ∧
    strOf "torvalds/linux" ≠ strOf " torvalds/linux" := by
  refine ⟨by decide, by decide⟩

/-- C6 (amended): for every input on which `parse_git_remote` returns a
`RepoRef`, the `original` field is the input with leading and trailing
whitespace stripped (and preserved verbatim otherwise). -/
theorem C6_amended_original_stripped (s : List Char) (ref : RepoRef)
    (h : parse_git_remote s = .ok ref) : ref.original = pyStrip s :=
  parseStripped_original (pyStrip s) ref h

/-- Witness for `C6_amended_original_stripped` at the input `"a/b"`. -/
theorem C6_amended_original_stripped_witness :
    (⟨strOf "a/b", [], strOf "unknown", [strOf "a"], strOf "b",
      strOf "a/b"⟩ : RepoRef).original = pyStrip (strOf "a/b") :=
  C6_amended_original_stripped (strOf "a/b") _ (by decide)

end DevdoxGit

namespace DevdoxGit

/-- `"/".join` with a doubled separator, for the doubled-slash half of the
round-trip property. -/
def joinSlash2 : List (List Char) → List Char
  | [] => []
  | [x] => x
  | x :: y :: xs => x ++ '/' :: '/' :: joinSlash2 (y :: xs)

/-- A namespace or repository segment the round-trip property quantifies
over: nonempty, and free of `/`, `:`, `\` and whitespace. -/
def validSeg (g : List Char) : Prop :=
  g ≠ [] ∧ ∀ c ∈ g, c ≠ '/' ∧ c ≠ ':' ∧ c ≠ '\\' ∧ pyIsSpace c = false

theorem splitSlash_no_slash (xs : List Char) (h : '/' ∉ xs) : splitSlash xs = [xs] := by
  induction xs with
  | nil => rfl
  | cons c t ih =>
    have hc : c ≠ '/' := fun e => h (e ▸ List.mem_cons_self c t)
    have ht : '/' ∉ t := fun m => h (List.mem_cons_of_mem c m)
    simp [splitSlash, hc, ih ht]

theorem splitSlash_append (xs ys : List Char) (h : '/' ∉ xs) :
    splitSlash (xs ++ '/' :: ys) = xs :: splitSlash ys := by
  induction xs with
  | nil => simp [splitSlash]
  | cons c t ih =>
    have hc : c ≠ '/' := fun e => h (e ▸ List.mem_cons_self c t)
    have ht : '/' ∉ t := fun m => h (List.mem_cons_of_mem c m)
    simp [splitSlash, hc, ih ht]

theorem joinSlash_cons (x : List Char) (l : List (List Char)) (h : l ≠ []) :
    joinSlash (x :: l) = x ++ '/' :: joinSlash l := by
  cases l with
  | nil => exact absurd rfl h
  | cons y t => rfl

theorem joinSlash2_cons (x : List Char) (l : List (List Char)) (h : l ≠ []) :
    joinSlash2 (x :: l) = x ++ '/' :: '/' :: joinSlash2 l := by
  cases l with
  | nil => exact absurd rfl h
  | cons y t => rfl

theorem joinSlash_concat (gs : List (List Char)) (x : List Char) (h : gs ≠ []) :
    joinSlash (gs ++ [x]) = joinSlash gs ++ '/' :: x := by
  induction gs with
  | nil => exact absurd rfl h
  | cons g t ih =>
    cases t with
    | nil => rfl
    | cons y ts =>
      rw [List.cons_append, joinSlash_cons g ((y :: ts) ++ [x]) (by simp),
          joinSlash_cons g (y :: ts) (by simp), ih (by simp)]
      simp

theorem joinSlash2_concat (gs : List (List Char)) (x : List Char) (h : gs ≠ []) :
    joinSlash2 (gs ++ [x]) = joinSlash2 gs ++ '/' :: '/' :: x := by
  induction gs with
  | nil => exact absurd rfl h
  | cons g t ih =>
    cases t with
    | nil => rfl
    | cons y ts =>
      rw [List.cons_append, joinSlash2_cons g ((y :: ts) ++ [x]) (by simp),
          joinSlash2_cons g (y :: ts) (by simp), ih (by simp)]
      simp

theorem mem_joinSlash (l : List (List Char)) (c : Char) (h : c ∈ joinSlash l) :
    c = '/' ∨ ∃ g ∈ l, c ∈ g := by
  induction l with
  | nil => simp [joinSlash] at h
  | cons x t ih =>
    cases t with
    | nil => exact Or.inr ⟨x, by simp, by simpa [joinSlash] using h⟩
    | cons y ts =>
      rw [joinSlash_cons x (y :: ts) (by simp)] at h
      rcases List.mem_append.mp h with hx | hr
      · exact Or.inr ⟨x, by simp, hx⟩
      · rcases List.mem_cons.mp hr with rfl | hj
        · exact Or.inl rfl
        · rcases ih hj with h1 | ⟨g, hg, hcg⟩
          · exact Or.inl h1
          · exact Or.inr ⟨g, List.mem_cons_of_mem x hg, hcg⟩

theorem mem_joinSlash2 (l : List (List Char)) (c : Char) (h : c ∈ joinSlash2 l) :
    c = '/' ∨ ∃ g ∈ l, c ∈ g := by
  induction l with
  | nil => simp [joinSlash2] at h
  | cons x t ih =>
    cases t with
    | nil => exact Or.inr ⟨x, by simp, by simpa [joinSlash2] using h⟩
    | cons y ts =>
      rw [joinSlash2_cons x (y :: ts) (by simp)] at h
      rcases List.mem_append.mp h with hx | hr
      · exact Or.inr ⟨x, by simp, hx⟩
      · rcases List.mem_cons.mp hr with rfl | hj
        · exact Or.inl rfl
        · rcases List.mem_cons.mp hj with rfl | hj2
          · exact Or.inl rfl
          · rcases ih hj2 with h1 | ⟨g, hg, hcg⟩
            · exact Or.inl h1
            · exact Or.inr ⟨g, List.mem_cons_of_mem x hg, hcg⟩

theorem filterSplit_joinSlash (l : List (List Char)) (hne : l ≠ [])
    (hsl : ∀ g ∈ l, '/' ∉ g) (hnil : ∀ g ∈ l, g ≠ []) :
    (splitSlash (joinSlash l)).filter (fun p => !p.isEmpty) = l := by
  induction l with
  | nil => exact absurd rfl hne
  | cons x t ih =>
    cases t with
    | nil =>
      rw [show joinSlash [x] = x from rfl, splitSlash_no_slash x (hsl x (by simp))]
      simp [hnil x (by simp)]
    | cons y ts =>
      rw [joinSlash_cons x (y :: ts) (by simp),
          splitSlash_append x _ (hsl x (by simp)), List.filter_cons]
      have hx : (!x.isEmpty) = true := by simp [hnil x (by simp)]
      rw [if_pos hx, ih (by simp) (fun g hg => hsl g (List.mem_cons_of_mem x hg))
            (fun g hg => hnil g (List.mem_cons_of_mem x hg))]

theorem filterSplit_joinSlash2 (l : List (List Char)) (hne : l ≠ [])
    (hsl : ∀ g ∈ l, '/' ∉ g) (hnil : ∀ g ∈ l, g ≠ []) :
    (splitSlash (joinSlash2 l)).filter (fun p => !p.isEmpty) = l := by
  induction l with
  | nil => exact absurd rfl hne
  | cons x t ih =>
    cases t with
    | nil =>
      rw [show joinSlash2 [x] = x from rfl, splitSlash_no_slash x (hsl x (by simp))]
      simp [hnil x (by simp)]
    | cons y ts =>
      rw [joinSlash2_cons x (y :: ts) (by simp),
          splitSlash_append x _ (hsl x (by simp))]
      rw [show splitSlash ('/' :: joinSlash2 (y :: ts)) = [] :: splitSlash (joinSlash2 (y :: ts)) from by simp [splitSlash]]
      rw [List.filter_cons, List.filter_cons]
      have hx : (!x.isEmpty) = true := by simp [hnil x (by simp)]
      rw [if_pos hx]
      rw [ih (by simp) (fun g hg => hsl g (List.mem_cons_of_mem x hg))
            (fun g hg => hnil g (List.mem_cons_of_mem x hg))]
      simp


theorem dropWhile_cons_of_neg (p : Char → Bool) (a : Char) (l : List Char)
    (h : p a = false) : (a :: l).dropWhile p = a :: l := by
  simp [List.dropWhile_cons, h]

theorem pyStrip_eq_self (s : List Char) (a b : Char) (s1 s2 : List Char)
    (hs : s = a :: s1) (hr : s.reverse = b :: s2)
    (ha : pyIsSpace a = false) (hb : pyIsSpace b = false) : pyStrip s = s := by
  unfold pyStrip
  rw [hs, dropWhile_cons_of_neg pyIsSpace a s1 ha, ← hs, hr,
      dropWhile_cons_of_neg pyIsSpace b s2 hb, ← hr, List.reverse_reverse]

theorem stripSlashBoth_eq_self (s : List Char) (a b : Char) (s1 s2 : List Char)
    (hs : s = a :: s1) (hr : s.reverse = b :: s2)
    (ha : a ≠ '/') (hb : b ≠ '/') : stripSlashBoth s = s := by
  unfold stripSlashBoth
  rw [hs, dropWhile_cons_of_neg _ a s1 (by simp [ha]), ← hs, hr,
      dropWhile_cons_of_neg _ b s2 (by simp [hb]), ← hr, List.reverse_reverse]

theorem findIdx?_eq_none (p : Char → Bool) (l : List Char)
    (h : ∀ c ∈ l, p c = false) : l.findIdx? p = none := by
  induction l with
  | nil => rfl
  | cons c t ih =>
    rw [List.findIdx?_cons]
    simp [h c (by simp), ih (fun d hd => h d (List.mem_cons_of_mem c hd))]

theorem scpNoUser_eq_none (s : List Char)
    (h : s.findIdx? (fun c => c = ':') = none) : scpNoUser s = none := by
  simp [scpNoUser, h]

theorem scpMatch_eq_none (s : List Char) (hcolon : ':' ∉ s) : scpMatch s = none := by
  have hs : s.findIdx? (fun c => c = ':') = none :=
    findIdx?_eq_none _ s (fun c hc => by
      simp only [decide_eq_false_iff_not]
      exact fun e => hcolon (e ▸ hc))
  unfold scpMatch
  cases hat : s.findIdx? (fun c => c = '@') with
  | none => exact scpNoUser_eq_none s hs
  | some i =>
    by_cases hi : 0 < i
    · have hdrop : (s.drop (i + 1)).findIdx? (fun c => c = ':') = none :=
        findIdx?_eq_none _ _ (fun c hc => by
          simp only [decide_eq_false_iff_not]
          exact fun e => hcolon (e ▸ List.mem_of_mem_drop hc))
      simp [hi, hdrop, scpNoUser, hs]
    · simp [hi, scpNoUser, hs]

theorem urlparseModel_scheme_empty (s : List Char)
    (hrm : removeUnsafe s = s)
    (hfi : s.findIdx? (fun c => c = ':') = none) :
    (urlparseModel s).scheme = [] := by
  simp [urlparseModel, splitScheme, hrm, hfi]

theorem mem_of_hasSub (c : Char) (p : List Char) (l : List Char)
    (hc : c ∈ p) (h : hasSub p l = true) : c ∈ l := by
  induction l with
  | nil =>
    unfold hasSub at h
    rw [List.isEmpty_iff] at h
    subst h
    cases hc
  | cons a t ih =>
    unfold hasSub at h
    rcases Bool.or_eq_true_iff.mp h with h1 | h2
    · unfold hasPre at h1
      rw [decide_eq_true_iff] at h1
      rw [← h1] at hc
      exact List.mem_of_mem_take hc
    · exact List.mem_cons_of_mem a (ih h2)

theorem looks_true (s : List Char) (h0 : s ≠ []) (hb : '\\' ∉ s) (hc : ':' ∉ s)
    (hsl : '/' ∈ s) (h4 : s.take 1 ≠ ['/']) (h5 : s.take 2 ≠ ['.', '/'])
    (h6 : s.take 3 ≠ ['.', '.', '/']) : looks_like_bare_fullname s = true := by
  have hsub : hasSub (strOf "://") s = false := by
    by_cases h : hasSub (strOf "://") s = true
    · exact absurd (mem_of_hasSub ':' _ s (by decide) h) hc
    · simpa using h
  have hdrive : isDriveLetter s = false := by
    cases s with
    | nil => rfl
    | cons a t =>
      cases t with
      | nil => rfl
      | cons b t2 =>
        cases t2 with
        | nil => rfl
        | cons c2 t3 =>
          have : b ≠ ':' := fun e => hc (e ▸ (by simp : b ∈ a :: b :: c2 :: t3))
          simp [isDriveLetter, this]
  have hp1 : hasPre (strOf "/") s = false := by
    simp only [hasPre, strOf]
    simpa using h4
  have hp2 : hasPre (strOf "./") s = false := by
    simp only [hasPre, strOf]
    simpa using h5
  have hp3 : hasPre (strOf "../") s = false := by
    simp only [hasPre, strOf]
    simpa using h6
  unfold looks_like_bare_fullname
  rw [if_neg (by simp [h0, hb]), if_neg (by simp [hp1, hp2, hp3]), if_neg (by simp [hdrive])]
  simp [hsl, hc, hsub]

theorem gitFix_concat (segs : List (List Char)) (r : List Char) :
    gitFix (segs ++ [r ++ strOf ".git"]) = segs ++ [r] := by
  unfold gitFix
  rw [show (segs ++ [r ++ strOf ".git"]).reverse = (r ++ strOf ".git") :: segs.reverse from by simp]
  dsimp only
  have hsuf : hasSuf (strOf ".git") (r ++ strOf ".git") = true := by
    unfold hasSuf hasPre
    rw [show (r ++ strOf ".git").reverse = (strOf ".git").reverse ++ r.reverse from by simp]
    rw [show ((strOf ".git").reverse).length = 4 from rfl]
    rw [show ((strOf ".git").reverse ++ r.reverse).take 4 = (strOf ".git").reverse from
      List.take_left (strOf ".git").reverse r.reverse]
    simp
  rw [if_pos hsuf]
  have hlen : (r ++ strOf ".git").length - 4 = r.length := by
    simp [List.length_append, strOf]
  rw [hlen, show (r ++ strOf ".git").take r.length = r from List.take_left r (strOf ".git")]
  simp


theorem not_space_chars (c : Char) (h : pyIsSpace c = false) :
    c ≠ '\t' ∧ c ≠ '\n' ∧ c ≠ '\x0d' := by
  refine ⟨?_, ?_, ?_⟩ <;> rintro rfl <;> revert h <;> decide

/-- Any input all of whose characters avoid the URL/scp markers, which
does not look like a POSIX/Windows path, and which contains a slash, is
handled by the bare-shorthand branch of the parser. -/
theorem parseStripped_bare (s : List Char) (parts : List (List Char))
    (hmm : ∀ c ∈ s, c ≠ ':' ∧ c ≠ '\\' ∧ c ≠ '\t' ∧ c ≠ '\n' ∧ c ≠ '\x0d')
    (hne : s ≠ [])
    (hslash : '/' ∈ s)
    (h4 : s.take 1 ≠ ['/'])
    (h5 : s.take 2 ≠ ['.', '/'])
    (h6 : s.take 3 ≠ ['.', '.', '/'])
    (hsp : split_path s = parts) :
    parseStripped s = .ok (bareRef s parts) := by
  have hcolon : ':' ∉ s := fun hcm => (hmm ':' hcm).1 rfl
  have hbk : '\\' ∉ s := fun hcm => (hmm _ hcm).2.1 rfl
  have hrm : removeUnsafe s = s := List.filter_eq_self.mpr (fun c hcm => by
    obtain ⟨_, _, e1, e2, e3⟩ := hmm c hcm
    simp [e1, e2, e3])
  have hfi : s.findIdx? (fun c => c = ':') = none := findIdx?_eq_none _ s (fun c hcm => by
    simp only [decide_eq_false_iff_not]
    exact (hmm c hcm).1)
  have hscheme := urlparseModel_scheme_empty s hrm hfi
  have hscp := scpMatch_eq_none s hcolon
  have hlooks := looks_true s hne hbk hcolon hslash h4 h5 h6
  have hpre : hasPre (strOf "/") s = false := by
    unfold hasPre
    simp only [decide_eq_false_iff_not]
    simpa [strOf] using h4
  simp only [parseStripped]
  rw [if_neg (by simp [hscheme]), hscp]
  simp [hpre, hlooks, hsp]

theorem take_facts (a : Char) (t w : List Char)
    (hseg : ∀ c ∈ a :: t, c ≠ '/')
    (hdot : a :: t ≠ ['.'])
    (hdd : a :: t ≠ ['.', '.']) :
    (a :: (t ++ '/' :: w)).take 1 ≠ ['/'] ∧
    (a :: (t ++ '/' :: w)).take 2 ≠ ['.', '/'] ∧
    (a :: (t ++ '/' :: w)).take 3 ≠ ['.', '.', '/'] := by
  have ha : a ≠ '/' := hseg a (by simp)
  refine ⟨by simp [ha], ?_, ?_⟩
  · cases t with
    | nil =>
      have had : a ≠ '.' := fun e => hdot (by rw [e])
      simp [had]
    | cons b t2 =>
      have hb : b ≠ '/' := hseg b (by simp)
      simp [hb]
  · cases t with
    | nil => simp
    | cons b t2 =>
      cases t2 with
      | nil =>
        have hab : ¬(a = '.' ∧ b = '.') := by
          rintro ⟨rfl, rfl⟩
          exact hdd rfl
        simp only [List.cons_append, List.nil_append, List.take_succ_cons, List.take_zero]
        intro he
        injection he with e1 he
        injection he with e2 he
        exact hab ⟨e1, e2⟩
      | cons c2 t3 =>
        have hc2 : c2 ≠ '/' := hseg c2 (by simp)
        simp [hc2]

theorem reverse_head_of_concat (A x : List Char) (c : Char) (x1 : List Char)
    (hx : x.reverse = c :: x1) : (A ++ x).reverse = c :: (x1 ++ A.reverse) := by
  rw [List.reverse_append, hx]
  rfl


theorem roundTrip_single (n1 r : List Char) (rest : List (List Char))
    (h1 : validSeg n1) (h2 : ∀ g ∈ rest, validSeg g) (h3 : validSeg r)
    (hdot : n1 ≠ strOf ".") (hdd : n1 ≠ strOf "..") :
    ∃ ref, parse_git_remote (joinSlash ((n1 :: rest) ++ [r ++ strOf ".git"])) = .ok ref ∧
      ref.nspace = n1 :: rest ∧ ref.repo = r := by
  obtain ⟨hn1ne, hn1c⟩ := h1
  obtain ⟨hrne, hrc⟩ := h3
  have hxne : r ++ strOf ".git" ≠ [] := by simp [strOf]
  have hsegs : ∀ g ∈ (n1 :: rest) ++ [r ++ strOf ".git"], g ≠ [] ∧ ∀ c ∈ g,
      c ≠ '/' ∧ c ≠ ':' ∧ c ≠ '\\' ∧ pyIsSpace c = false := by
    intro g hg
    rcases List.mem_append.mp hg with hg1 | hg2
    · rcases List.mem_cons.mp hg1 with rfl | hgr
      · exact ⟨hn1ne, hn1c⟩
      · exact ⟨(h2 g hgr).1, (h2 g hgr).2⟩
    · have hgx : g = r ++ strOf ".git" := by simpa using hg2
      subst hgx
      refine ⟨hxne, ?_⟩
      intro c hcx
      rcases List.mem_append.mp hcx with hcr | hcg
      · exact hrc c hcr
      · have hc4 : c = '.' ∨ c = 'g' ∨ c = 'i' ∨ c = 't' := by
          simpa [strOf] using hcg
        rcases hc4 with rfl | rfl | rfl | rfl <;>
          exact ⟨by decide, by decide, by decide, by decide⟩
  have hsl : ∀ g ∈ (n1 :: rest) ++ [r ++ strOf ".git"], '/' ∉ g :=
    fun g hg hcg => ((hsegs g hg).2 '/' hcg).1 rfl
  have hnil : ∀ g ∈ (n1 :: rest) ++ [r ++ strOf ".git"], g ≠ [] :=
    fun g hg => (hsegs g hg).1
  obtain ⟨a, t, hn1⟩ : ∃ a t, n1 = a :: t := by
    cases n1 with
    | nil => exact absurd rfl hn1ne
    | cons a t => exact ⟨a, t, rfl⟩
  have hdot2 : a :: t ≠ ['.'] := by
    rw [← hn1]
    simpa [strOf] using hdot
  have hdd2 : a :: t ≠ ['.', '.'] := by
    rw [← hn1]
    simpa [strOf] using hdd
  have hseg2 : ∀ c ∈ a :: t, c ≠ '/' := by
    rw [← hn1]
    exact fun c hcg => (hn1c c hcg).1
  have hxrev : (r ++ strOf ".git").reverse = 't' :: ('i' :: 'g' :: '.' :: r.reverse) := by
    rw [List.reverse_append]
    rfl
  have hcons : joinSlash ((n1 :: rest) ++ [r ++ strOf ".git"]) =
      n1 ++ '/' :: joinSlash (rest ++ [r ++ strOf ".git"]) := by
    rw [List.cons_append]
    exact joinSlash_cons n1 (rest ++ [r ++ strOf ".git"]) (by simp)
  have hshape : joinSlash ((n1 :: rest) ++ [r ++ strOf ".git"]) =
      a :: (t ++ '/' :: joinSlash (rest ++ [r ++ strOf ".git"])) := by
    rw [hcons, hn1]
    rfl
  have hconc : joinSlash ((n1 :: rest) ++ [r ++ strOf ".git"]) =
      (joinSlash (n1 :: rest) ++ ['/']) ++ (r ++ strOf ".git") := by
    rw [joinSlash_concat (n1 :: rest) (r ++ strOf ".git") (by simp)]
    simp
  have hrev : (joinSlash ((n1 :: rest) ++ [r ++ strOf ".git"])).reverse =
      't' :: (('i' :: 'g' :: '.' :: r.reverse) ++ (joinSlash (n1 :: rest) ++ ['/']).reverse) := by
    rw [hconc]
    exact reverse_head_of_concat _ _ 't' _ hxrev
  have haprops := hn1c a (by rw [hn1]; simp)
  have hmm : ∀ c ∈ joinSlash ((n1 :: rest) ++ [r ++ strOf ".git"]),
      c ≠ ':' ∧ c ≠ '\\' ∧ c ≠ '\t' ∧ c ≠ '\n' ∧ c ≠ '\x0d' := by
    intro c hcm
    rcases mem_joinSlash _ c hcm with rfl | ⟨g, hg, hcg⟩
    · exact ⟨by decide, by decide, by decide, by decide, by decide⟩
    · obtain ⟨e1, e2, e3, e4⟩ := (hsegs g hg).2 c hcg
      obtain ⟨q1, q2, q3⟩ := not_space_chars c e4
      exact ⟨e2, e3, q1, q2, q3⟩
  have hne : joinSlash ((n1 :: rest) ++ [r ++ strOf ".git"]) ≠ [] := by
    rw [hshape]
    simp
  have hslash : '/' ∈ joinSlash ((n1 :: rest) ++ [r ++ strOf ".git"]) := by
    rw [hshape]
    simp
  have htakes := take_facts a t (joinSlash (rest ++ [r ++ strOf ".git"])) hseg2 hdot2 hdd2
  have hstrip : pyStrip (joinSlash ((n1 :: rest) ++ [r ++ strOf ".git"])) =
      joinSlash ((n1 :: rest) ++ [r ++ strOf ".git"]) :=
    pyStrip_eq_self _ a 't' _ _ hshape hrev haprops.2.2.2 (by decide)
  have hstripS : stripSlashBoth (joinSlash ((n1 :: rest) ++ [r ++ strOf ".git"])) =
      joinSlash ((n1 :: rest) ++ [r ++ strOf ".git"]) :=
    stripSlashBoth_eq_self _ a 't' _ _ hshape hrev haprops.1 (by decide)
  have hfil := filterSplit_joinSlash ((n1 :: rest) ++ [r ++ strOf ".git"]) (by simp) hsl hnil
  have hsp : split_path (joinSlash ((n1 :: rest) ++ [r ++ strOf ".git"])) =
      (n1 :: rest) ++ [r] := by
    unfold split_path
    rw [hstripS, hfil, gitFix_concat]
  have hparse : parseStripped (joinSlash ((n1 :: rest) ++ [r ++ strOf ".git"])) =
      .ok (bareRef (joinSlash ((n1 :: rest) ++ [r ++ strOf ".git"])) ((n1 :: rest) ++ [r])) :=
    parseStripped_bare _ _ hmm hne hslash
      (by rw [hshape]; exact htakes.1)
      (by rw [hshape]; exact htakes.2.1)
      (by rw [hshape]; exact htakes.2.2) hsp
  refine ⟨bareRef (joinSlash ((n1 :: rest) ++ [r ++ strOf ".git"]))
    ((n1 :: rest) ++ [r]), ?_, ?_, ?_⟩
  · unfold parse_git_remote
    rw [hstrip]
    exact hparse
  · simp only [bareRef]
    rw [List.dropLast_concat]
  · simp only [bareRef, List.getLastD_eq_getLast?]
    rw [List.getLast?_concat]
    rfl


theorem roundTrip_double (n1 r : List Char) (rest : List (List Char))
    (h1 : validSeg n1) (h2 : ∀ g ∈ rest, validSeg g) (h3 : validSeg r)
    (hdot : n1 ≠ strOf ".") (hdd : n1 ≠ strOf "..") :
    ∃ ref, parse_git_remote (joinSlash2 ((n1 :: rest) ++ [r ++ strOf ".git"])) = .ok ref ∧
      ref.nspace = n1 :: rest ∧ ref.repo = r := by
  obtain ⟨hn1ne, hn1c⟩ := h1
  obtain ⟨hrne, hrc⟩ := h3
  have hxne : r ++ strOf ".git" ≠ [] := by simp [strOf]
  have hsegs : ∀ g ∈ (n1 :: rest) ++ [r ++ strOf ".git"], g ≠ [] ∧ ∀ c ∈ g,
      c ≠ '/' ∧ c ≠ ':' ∧ c ≠ '\\' ∧ pyIsSpace c = false := by
    intro g hg
    rcases List.mem_append.mp hg with hg1 | hg2
    · rcases List.mem_cons.mp hg1 with rfl | hgr
      · exact ⟨hn1ne, hn1c⟩
      · exact ⟨(h2 g hgr).1, (h2 g hgr).2⟩
    · have hgx : g = r ++ strOf ".git" := by simpa using hg2
      subst hgx
      refine ⟨hxne, ?_⟩
      intro c hcx
      rcases List.mem_append.mp hcx with hcr | hcg
      · exact hrc c hcr
      · have hc4 : c = '.' ∨ c = 'g' ∨ c = 'i' ∨ c = 't' := by
          simpa [strOf] using hcg
        rcases hc4 with rfl | rfl | rfl | rfl <;>
          exact ⟨by decide, by decide, by decide, by decide⟩
  have hsl : ∀ g ∈ (n1 :: rest) ++ [r ++ strOf ".git"], '/' ∉ g :=
    fun g hg hcg => ((hsegs g hg).2 '/' hcg).1 rfl
  have hnil : ∀ g ∈ (n1 :: rest) ++ [r ++ strOf ".git"], g ≠ [] :=
    fun g hg => (hsegs g hg).1
  obtain ⟨a, t, hn1⟩ : ∃ a t, n1 = a :: t := by
    cases n1 with
    | nil => exact absurd rfl hn1ne
    | cons a t => exact ⟨a, t, rfl⟩
  have hdot2 : a :: t ≠ ['.'] := by
    rw [← hn1]
    simpa [strOf] using hdot
  have hdd2 : a :: t ≠ ['.', '.'] := by
    rw [← hn1]
    simpa [strOf] using hdd
  have hseg2 : ∀ c ∈ a :: t, c ≠ '/' := by
    rw [← hn1]
    exact fun c hcg => (hn1c c hcg).1
  have hxrev : (r ++ strOf ".git").reverse = 't' :: ('i' :: 'g' :: '.' :: r.reverse) := by
    rw [List.reverse_append]
    rfl
  have hcons : joinSlash2 ((n1 :: rest) ++ [r ++ strOf ".git"]) =
      n1 ++ '/' :: '/' :: joinSlash2 (rest ++ [r ++ strOf ".git"]) := by
    rw [List.cons_append]
    exact joinSlash2_cons n1 (rest ++ [r ++ strOf ".git"]) (by simp)
  have hshape : joinSlash2 ((n1 :: rest) ++ [r ++ strOf ".git"]) =
      a :: (t ++ '/' :: ('/' :: joinSlash2 (rest ++ [r ++ strOf ".git"]))) := by
    rw [hcons, hn1]
    rfl
  have hconc : joinSlash2 ((n1 :: rest) ++ [r ++ strOf ".git"]) =
      (joinSlash2 (n1 :: rest) ++ ['/', '/']) ++ (r ++ strOf ".git") := by
    rw [joinSlash2_concat (n1 :: rest) (r ++ strOf ".git") (by simp)]
    simp
  have hrev : (joinSlash2 ((n1 :: rest) ++ [r ++ strOf ".git"])).reverse =
      't' :: (('i' :: 'g' :: '.' :: r.reverse) ++ (joinSlash2 (n1 :: rest) ++ ['/', '/']).reverse) := by
    rw [hconc]
    exact reverse_head_of_concat _ _ 't' _ hxrev
  have haprops := hn1c a (by rw [hn1]; simp)
  have hmm : ∀ c ∈ joinSlash2 ((n1 :: rest) ++ [r ++ strOf ".git"]),
      c ≠ ':' ∧ c ≠ '\\' ∧ c ≠ '\t' ∧ c ≠ '\n' ∧ c ≠ '\x0d' := by
    intro c hcm
    rcases mem_joinSlash2 _ c hcm with rfl | ⟨g, hg, hcg⟩
    · exact ⟨by decide, by decide, by decide, by decide, by decide⟩
    · obtain ⟨e1, e2, e3, e4⟩ := (hsegs g hg).2 c hcg
      obtain ⟨q1, q2, q3⟩ := not_space_chars c e4
      exact ⟨e2, e3, q1, q2, q3⟩
  have hne : joinSlash2 ((n1 :: rest) ++ [r ++ strOf ".git"]) ≠ [] := by
    rw [hshape]
    simp
  have hslash : '/' ∈ joinSlash2 ((n1 :: rest) ++ [r ++ strOf ".git"]) := by
    rw [hshape]
    simp
  have htakes := take_facts a t ('/' :: joinSlash2 (rest ++ [r ++ strOf ".git"])) hseg2 hdot2 hdd2
  have hstrip : pyStrip (joinSlash2 ((n1 :: rest) ++ [r ++ strOf ".git"])) =
      joinSlash2 ((n1 :: rest) ++ [r ++ strOf ".git"]) :=
    pyStrip_eq_self _ a 't' _ _ hshape hrev haprops.2.2.2 (by decide)
  have hstripS : stripSlashBoth (joinSlash2 ((n1 :: rest) ++ [r ++ strOf ".git"])) =
      joinSlash2 ((n1 :: rest) ++ [r ++ strOf ".git"]) :=
    stripSlashBoth_eq_self _ a 't' _ _ hshape hrev haprops.1 (by decide)
  have hfil := filterSplit_joinSlash2 ((n1 :: rest) ++ [r ++ strOf ".git"]) (by simp) hsl hnil
  have hsp : split_path (joinSlash2 ((n1 :: rest) ++ [r ++ strOf ".git"])) =
      (n1 :: rest) ++ [r] := by
    unfold split_path
    rw [hstripS, hfil, gitFix_concat]
  have hparse : parseStripped (joinSlash2 ((n1 :: rest) ++ [r ++ strOf ".git"])) =
      .ok (bareRef (joinSlash2 ((n1 :: rest) ++ [r ++ strOf ".git"])) ((n1 :: rest) ++ [r])) :=
    parseStripped_bare _ _ hmm hne hslash
      (by rw [hshape]; exact htakes.1)
      (by rw [hshape]; exact htakes.2.1)
      (by rw [hshape]; exact htakes.2.2) hsp
  refine ⟨bareRef (joinSlash2 ((n1 :: rest) ++ [r ++ strOf ".git"]))
    ((n1 :: rest) ++ [r]), ?_, ?_, ?_⟩
  · unfold parse_git_remote
    rw [hstrip]
    exact hparse
  · simp only [bareRef]
    rw [List.dropLast_concat]
  · simp only [bareRef, List.getLastD_eq_getLast?]
    rw [List.getLast?_concat]
    rfl


/-- C9: round-trip of segmentation. For any valid namespace chain
`n1 :: rest` (nonempty segments free of separators and whitespace, the
first not `.` or `..`) and valid repo name `r`, parsing the constructed
remote `"n1/.../nk/r.git"` recovers exactly that namespace and repo, and
neither the `.git` suffix nor doubling every slash changes the result. -/
theorem C9_round_trip (n1 r : List Char) (rest : List (List Char))
    (h1 : validSeg n1) (h2 : ∀ g ∈ rest, validSeg g) (h3 : validSeg r)
    (hdot : n1 ≠ strOf ".") (hdd : n1 ≠ strOf "..") :
    (∃ ref, parse_git_remote (joinSlash ((n1 :: rest) ++ [r ++ strOf ".git"])) = .ok ref ∧
      ref.nspace = n1 :: rest ∧ ref.repo = r) ∧
    (∃ ref, parse_git_remote (joinSlash2 ((n1 :: rest) ++ [r ++ strOf ".git"])) = .ok ref ∧
      ref.nspace = n1 :: rest ∧ ref.repo = r) :=
  ⟨roundTrip_single n1 r rest h1 h2 h3 hdot hdd,
   roundTrip_double n1 r rest h1 h2 h3 hdot hdd⟩

/-- Witness for `C9_round_trip` at `namespace = ["grp", "sub"]`,
`repo = "repo"`. -/
theorem C9_round_trip_witness :
    (∃ ref, parse_git_remote
        (joinSlash ((strOf "grp" :: [strOf "sub"]) ++ [strOf "repo" ++ strOf ".git"])) = .ok ref ∧
      ref.nspace = strOf "grp" :: [strOf "sub"] ∧ ref.repo = strOf "repo") ∧
    (∃ ref, parse_git_remote
        (joinSlash2 ((strOf "grp" :: [strOf "sub"]) ++ [strOf "repo" ++ strOf ".git"])) = .ok ref ∧
      ref.nspace = strOf "grp" :: [strOf "sub"] ∧ ref.repo = strOf "repo") :=
  C9_round_trip (strOf "grp") (strOf "repo") [strOf "sub"]
    ⟨by decide, by decide⟩
    (by
      intro g hg
      rw [List.mem_singleton] at hg
      subst hg
      exact ⟨by decide, by decide⟩)
    ⟨by decide, by decide⟩ (by decide) (by decide)

end DevdoxGit
